import Mathlib

/-!
Verification of the request-construction engine of `openapi-client-axios`
(`src/client.ts`), shallowly embedded in Lean.

Modelling conventions:
- JavaScript runtime values are embedded as the inductive `JValue`; JS
  truthiness is `JValue.truthy` and template-literal coercion is `jsToString`.
- JS objects are association lists `List (String × JValue)` with insertion
  order preserved; property write is `objSet` (overwrite in place or append),
  property read is `objGet` (first match).
- The path pattern handled by the external `bath-es5` library is represented
  structurally as a list of literal and placeholder segments (`PathPart`);
  `bathNames` extracts the placeholder names and `renderPattern` substitutes
  values in place, mirroring the library's `names` / `path` interface.
- An absent `servers` list in a document or operation is modelled as the
  empty list, and an absent `parameters` list as the empty list (the source
  treats a missing list and an empty list identically in every path the
  claims exercise).
- The external `lodash` helpers used by the source (`_.find`, `_.first`,
  `_.merge`, `_.isArray`, `_.isNil`) are embedded with their documented
  semantics; in particular `lodashMerge` merges plain objects key-by-key and
  arrays index-by-index, and skips `undefined` source values when the
  destination already has the key.
- Query-string serialization (`QueryString.stringify` with
  `arrayFormat: 'none'`) is embedded by `qsStringify`; percent-encoding is
  elided since no claim observes it.
-/

/-- Embedded JavaScript runtime values. -/
inductive JValue where
  | undef
  | null
  | bool (b : Bool)
  | num (n : Int)
  | str (s : String)
  | arr (xs : List JValue)
  | obj (fields : List (String × JValue))
deriving Repr

/-- JS truthiness: `undefined`, `null`, `false`, `0` and `""` are falsy;
arrays and objects are always truthy. -/
def JValue.truthy : JValue → Bool
  | .undef => false
  | .null => false
  | .bool b => b
  | .num n => n != 0
  | .str s => s != ""
  | .arr _ => true
  | .obj _ => true

/-- Is this value JS `undefined`? -/
def JValue.isUndef : JValue → Bool
  | .undef => true
  | _ => false

mutual
/-- JS string coercion as performed by a template literal `${v}`. -/
def jsToString : JValue → String
  | .undef => "undefined"
  | .null => "null"
  | .bool b => if b then "true" else "false"
  | .num n => toString n
  | .str s => s
  | .arr xs => String.intercalate "," (jsArrStrings xs)
  | .obj _ => "[object Object]"

/-- Element strings of `Array.prototype.toString`: `null` and `undefined`
elements render as the empty string. -/
def jsArrStrings : List JValue → List String
  | [] => []
  | x :: xs =>
    (match x with
      | .undef => ""
      | .null => ""
      | v => jsToString v) :: jsArrStrings xs
end

/-- Property read on a JS object: value of the first matching key. -/
def objGet (m : List (String × JValue)) (k : String) : Option JValue :=
  (m.find? (fun p => p.1 = k)).map (·.2)

/-- Property write on a JS object: overwrite the key in place when present,
otherwise append it (JS objects preserve insertion order and never hold a
duplicate key, so overwriting the first occurrence is exact). -/
def objSet (m : List (String × JValue)) (k : String) (v : JValue) :
    List (String × JValue) :=
  match m with
  | [] => [(k, v)]
  | p :: rest => if p.1 = k then (k, v) :: rest else p :: objSet rest k v

/-- Parameter locations (`ParamType` in `types/client`). -/
inductive ParamType where
  | path
  | query
  | header
  | cookie
deriving DecidableEq, Repr

/-- An OpenAPI parameter declaration: name, location, required flag
(`required` absent is modelled as `false`, matching lodash's
`{ required: true }` shorthand match). -/
structure Parameter where
  name : String
  «in» : ParamType
  required : Bool := false
deriving Repr

/-- An OpenAPI server entry: URL plus optional description. -/
structure Server where
  url : String
  description : Option String := none
deriving Repr

/-- The HTTP methods recognized by `HttpMethod` in `types/client`. -/
inductive HttpMethod where
  | get | put | post | delete | options | head | patch | trace
deriving DecidableEq, Repr

/-- One segment of a path pattern: a literal piece or a `{name}` placeholder. -/
inductive PathPart where
  | lit (s : String)
  | prm (name : String)
deriving DecidableEq, Repr

/-- A path pattern, e.g. `/pets/{id}` is `[lit "/pets/", prm "id"]`. -/
abbrev PathPattern := List PathPart

/-- `bath(pattern).names`: the placeholder names of the pattern, in order. -/
def bathNames (p : PathPattern) : List String :=
  p.filterMap (fun part =>
    match part with
    | .lit _ => none
    | .prm n => some n)

/-- `bath(pattern).path(params)`: substitute each placeholder with the bound
value's string form (absent values coerce to "undefined"). -/
def renderPattern (p : PathPattern) (params : List (String × JValue)) : String :=
  String.join (p.map (fun part =>
    match part with
    | .lit s => s
    | .prm n => jsToString ((objGet params n).getD JValue.undef)))

/-- The method-independent content of one OpenAPI operation object. -/
structure OperationObject where
  operationId : Option String := none
  parameters : List Parameter := []
  servers : List Server := []
deriving Repr

/-- One path item of the description: up to one operation object per HTTP
method, plus path-level parameter and server declarations. -/
structure PathItem where
  get : Option OperationObject := none
  put : Option OperationObject := none
  post : Option OperationObject := none
  delete : Option OperationObject := none
  options : Option OperationObject := none
  head : Option OperationObject := none
  patch : Option OperationObject := none
  trace : Option OperationObject := none
  parameters : List Parameter := []
  servers : List Server := []
deriving Repr

/-- The parsed OpenAPI document: paths dictionary plus top-level servers. -/
structure Document where
  paths : List (PathPattern × PathItem) := []
  servers : List Server := []
deriving Repr

/-- A flattened operation record (`Operation` in `types/client`): the
operation object spread together with its path and method. -/
structure Operation where
  operationId : Option String := none
  parameters : List Parameter := []
  servers : List Server := []
  path : PathPattern
  method : HttpMethod
deriving Repr

/-- The operation object a path item holds for a given method. -/
def PathItem.methodGet (item : PathItem) : HttpMethod → Option OperationObject
  | .get => item.get
  | .put => item.put
  | .post => item.post
  | .delete => item.delete
  | .options => item.options
  | .head => item.head
  | .patch => item.patch
  | .trace => item.trace

/-- The `(method, operation object)` entries of a path item, in the fixed
enumeration order of `HttpMethod` (`_.pick(pathObject, _.values(HttpMethod))`
followed by `_.entries`). -/
def PathItem.methodEntries (item : PathItem) : List (HttpMethod × OperationObject) :=
  [HttpMethod.get, .put, .post, .delete, .options, .head, .patch, .trace].filterMap
    (fun m => (item.methodGet m).map (fun o => (m, o)))

/-- Builds one flattened `Operation` from a path entry: spreads the
operation object and appends path-level parameters and servers after the
operation-level ones. -/
def mkOperation (path : PathPattern) (method : HttpMethod)
    (o : OperationObject) (item : PathItem) : Operation :=
  { operationId := o.operationId
    parameters := o.parameters ++ item.parameters
    servers := o.servers ++ item.servers
    path := path
    method := method }

/-- `getOperations`: flattens the paths dictionary into one operation list. -/
def getOperations (doc : Document) : List Operation :=
  (doc.paths.map (fun entry =>
    entry.2.methodEntries.map (fun mo => mkOperation entry.1 mo.1 mo.2 entry.2))).flatten

/-- The default-server selector (`withServer` option): a numeric index, a
description string, or an explicit server object. -/
inductive ServerSelector where
  | idx (n : Nat)
  | desc (s : String)
  | srv (s : Server)
deriving Repr

/-- The client state read by request construction: the loaded definition
(absent before `init`), the default-server selector, and the base-URL
template variables (stored but never read by `getBaseURL` in this source). -/
structure ClientState where
  definition : Option Document := none
  defaultServer : ServerSelector := .idx 0
  baseURLVariables : List (String × String) := []

/-- `getBaseURL(operation?)`: absent definition resolves to nothing;
otherwise a non-empty operation-level server list wins with its first URL;
otherwise the default-server selector picks a target server (numeric index
into the top-level list, description-string match, or explicit server object
with a truthy URL), whose URL is returned when one is found. -/
def getBaseURL (st : ClientState) (op? : Option Operation) : Option String :=
  match st.definition with
  | none => none
  | some defn =>
    match (match op? with
            | some op => op.servers.head?
            | none => none) with
    | some s => some s.url
    | none =>
      let targetServer : Option Server :=
        match st.defaultServer with
        | .idx n => defn.servers.get? n
        | .desc d => defn.servers.find? (fun s => s.description == some d)
        | .srv s => if s.url == "" then none else some s
      targetServer.map (fun s => s.url)

/-- The four request maps filled by `setRequestParam`. -/
structure BoundMaps where
  pathParams : List (String × JValue) := []
  query : List (String × JValue) := []
  headers : List (String × JValue) := []
  cookies : List (String × JValue) := []
deriving Repr

/-- `setRequestParam(name, value, type)`: writes the value into the map
selected by the parameter location. -/
def setRequestParam (b : BoundMaps) (name : String) (value : JValue) :
    ParamType → BoundMaps
  | .path => { b with pathParams := objSet b.pathParams name value }
  | .query => { b with query := objSet b.query name value }
  | .header => { b with headers := objSet b.headers name value }
  | .cookie => { b with cookies := objSet b.cookies name value }

/-- `getParamType(paramName)`: location of the first declared parameter with
that name, defaulting to query when the operation declares none. -/
def getParamType (op : Operation) (paramName : String) : ParamType :=
  match op.parameters.find? (fun p => p.name == paramName) with
  | some p => p.«in»
  | none => .query

/-- `getFirstOperationParam()`: the first parameter declared `required: true`,
else the first declared parameter, else nothing. -/
def getFirstOperationParam (op : Operation) : Option Parameter :=
  match op.parameters.find? (fun p => p.required) with
  | some p => some p
  | none => op.parameters.head?

/-- One entry of a `ParamsArray` argument: explicit name, value and optional
explicit location. -/
structure ArrayParam where
  name : String
  value : JValue
  «in» : Option ParamType := none
deriving Repr

/-- The shape of the first element of the argument tuple: a `ParamsArray`,
a `ParamsObject`, a bare scalar, or nothing (`null`/`undefined`, which both
bind no parameters). -/
inductive ParamsArg where
  | absent
  | arr (ps : List ArrayParam)
  | obj (m : List (String × JValue))
  | scalar (v : JValue)
deriving Repr

/-- The `ParamsArray` loop: each entry is placed at its explicit location
when one is given (`param.in ||`), else at the classified location. -/
def bindParamsArray (op : Operation) : List ArrayParam → BoundMaps → BoundMaps
  | [], b => b
  | p :: rest, b =>
    bindParamsArray op rest
      (setRequestParam b p.name p.value (p.«in».getD (getParamType op p.name)))

/-- The `ParamsObject` loop: each key with a truthy value is placed at its
classified location; keys with falsy values are skipped. -/
def bindParamsObject (op : Operation) : List (String × JValue) → BoundMaps → BoundMaps
  | [], b => b
  | (n, v) :: rest, b =>
    bindParamsObject op rest
      (if v.truthy then setRequestParam b n v (getParamType op n) else b)

/-- JS template-literal rendering of a possibly-undefined string
(`undefined` interpolates as the literal text "undefined"). -/
def optStr : Option String → String
  | some s => s
  | none => "undefined"

/-- Argument dispatch of `getRequestConfigForOperation`: array, object and
scalar shapes of the first argument; a scalar with no declared parameter to
receive it throws the operation-naming error. -/
def bindArgs (op : Operation) : ParamsArg → Except String BoundMaps
  | .absent => .ok {}
  | .arr ps => .ok (bindParamsArray op ps {})
  | .obj m => .ok (bindParamsObject op m {})
  | .scalar v =>
    match getFirstOperationParam op with
    | none => .error ("No parameters found for operation " ++ optStr op.operationId)
    | some p => .ok (setRequestParam {} p.name v p.«in»)

/-- The path-parameter loop of `getRequestConfigForOperation`: every
placeholder name of the pattern is overwritten with the string coercion of
its current value (absent values coerce to "undefined"). -/
def coercePathParams : List String → List (String × JValue) → List (String × JValue)
  | [], m => m
  | n :: ns, m =>
    coercePathParams ns (objSet m n (.str (jsToString ((objGet m n).getD .undef))))

/-- One query-string fragment for a non-array value (`arrayFormat: 'none'`):
`undefined` values are skipped, `null` renders the bare key.
Percent-encoding is elided (no claim observes it). -/
def qsElem (k : String) : JValue → List String
  | .undef => []
  | .null => [k]
  | v => [k ++ "=" ++ jsToString v]

/-- Query-string fragments for one key (`arrayFormat: 'none'` repeats the
key per array element). -/
def qsPair (k : String) : JValue → List String
  | .arr xs => (xs.map (qsElem k)).flatten
  | v => qsElem k v

/-- `QueryString.stringify(query, { arrayFormat: 'none' })`, with
percent-encoding and key ordering elided. -/
def qsStringify (q : List (String × JValue)) : String :=
  String.intercalate "&" ((q.map (fun p => qsPair p.1 p.2)).flatten)

/-- The generic request config produced by `getRequestConfigForOperation`. -/
structure RequestConfig where
  method : HttpMethod
  url : String
  path : String
  pathParams : List (String × JValue)
  query : List (String × JValue)
  queryString : String
  headers : List (String × JValue)
  cookies : List (String × JValue)
  payload : JValue
deriving Repr

/-- The argument tuple of an operation method: first element (parameter
binding), second element (body payload), third element (raw axios override;
`none` models an absent or falsy third element). -/
structure OperationMethodArgs where
  params : ParamsArg := .absent
  payload : JValue := .undef
  config : Option JValue := none

/-- `getRequestConfigForOperation(operation, args)`: binds the arguments,
coerces and substitutes the path placeholders, serializes the query string
and concatenates the full URL from the (possibly undefined, then literally
interpolated) base URL, the path, and the optional query string. -/
def getRequestConfigForOperation (st : ClientState) (op : Operation)
    (args : OperationMethodArgs) : Except String RequestConfig := do
  let b ← bindArgs op args.params
  let pathParams := coercePathParams (bathNames op.path) b.pathParams
  let path := renderPattern op.path pathParams
  let queryString := qsStringify b.query
  let url := optStr (getBaseURL st (some op)) ++ path ++
    (if queryString = "" then "" else "?" ++ queryString)
  .ok { method := op.method
        url := url
        path := path
        pathParams := pathParams
        query := b.query
        queryString := queryString
        headers := b.headers
        cookies := b.cookies
        payload := args.payload }

mutual
/-- `_.merge(dst, src)`: plain objects are merged recursively key-by-key,
arrays are merged recursively index-by-index, and any other source value
overrides the destination by assignment. -/
def lodashMerge : JValue → JValue → JValue
  | .obj d, .obj s => .obj (lodashMergeFields d s)
  | .arr d, .arr s => .arr (lodashMergeArrays d s)
  | _, s => s

/-- Key-by-key object merge of `_.merge`: a source value for an existing key
is merged over the destination value (an `undefined` source value is skipped
when the destination has the key); a new key is appended. -/
def lodashMergeFields (d : List (String × JValue)) :
    List (String × JValue) → List (String × JValue)
  | [] => d
  | (k, sv) :: rest =>
    lodashMergeFields
      (match objGet d k with
        | some dv => if sv.isUndef then d else objSet d k (lodashMerge dv sv)
        | none => d ++ [(k, sv)])
      rest

/-- Index-by-index array merge of `_.merge`: overlapping indices merge
recursively (`undefined` source elements keep the destination element),
destination elements beyond the source length are preserved, and source
elements beyond the destination length are appended. -/
def lodashMergeArrays : List JValue → List JValue → List JValue
  | d, [] => d
  | [], sv :: s => sv :: lodashMergeArrays [] s
  | dv :: d, sv :: s =>
    (if sv.isUndef then dv else lodashMerge dv sv) :: lodashMergeArrays d s
end

/-- The lower-case method string of an `HttpMethod` value. -/
def methodStr : HttpMethod → String
  | .get => "get"
  | .put => "put"
  | .post => "post"
  | .delete => "delete"
  | .options => "options"
  | .head => "head"
  | .patch => "patch"
  | .trace => "trace"

/-- The axios request config `{ method, url, data, params, headers }` built
from a generic request config (its `url` field is the request's path — the
origin travels through axios `baseURL`), with `baseURL` set from a non-empty
operation-level server list. -/
def buildAxiosConfig (op : Operation) (request : RequestConfig) :
    List (String × JValue) :=
  let base : List (String × JValue) :=
    [("method", JValue.str (methodStr request.method)),
     ("url", JValue.str request.path),
     ("data", request.payload),
     ("params", JValue.obj request.query),
     ("headers", JValue.obj request.headers)]
  match op.servers.head? with
  | some s => base ++ [("baseURL", JValue.str s.url)]
  | none => base

/-- `getAxiosConfigForOperation(operation, args)`: builds the axios request
config from the generic request config and finally deep-merges the caller's
raw config override on top when one was supplied. -/
def getAxiosConfigForOperation (st : ClientState) (op : Operation)
    (args : OperationMethodArgs) : Except String JValue := do
  let request ← getRequestConfigForOperation st op args
  .ok (match args.config with
        | some c => lodashMerge (JValue.obj (buildAxiosConfig op request)) c
        | none => JValue.obj (buildAxiosConfig op request))

section MapLemmas

theorem objGet_nil (n : String) : objGet [] n = none := rfl

theorem objGet_cons (p : String × JValue) (m : List (String × JValue)) (n : String) :
    objGet (p :: m) n = if p.1 = n then some p.2 else objGet m n := by
  by_cases h : p.1 = n <;> simp [objGet, List.find?, h]

theorem objGet_objSet_self (m : List (String × JValue)) (k : String) (v : JValue) :
    objGet (objSet m k v) k = some v := by
  induction m with
  | nil => simp [objSet, objGet_cons]
  | cons p rest ih =>
    by_cases h : p.1 = k
    · simp [objSet, h, objGet_cons]
    · simp [objSet, h, objGet_cons, ih]

theorem objGet_objSet_ne (m : List (String × JValue)) (k : String) (v : JValue)
    (n : String) (h : n ≠ k) : objGet (objSet m k v) n = objGet m n := by
  induction m with
  | nil => simp [objSet, objGet_cons, Ne.symm h]
  | cons p rest ih =>
    by_cases hp : p.1 = k
    · have hpn : p.1 ≠ n := hp ▸ Ne.symm h
      simp [objSet, hp, objGet_cons, hpn, Ne.symm h]
    · simp [objSet, hp, objGet_cons, ih]

theorem objGet_eq_none_of_not_mem (m : List (String × JValue)) (n : String)
    (h : n ∉ m.map Prod.fst) : objGet m n = none := by
  induction m with
  | nil => rfl
  | cons p rest ih =>
    simp only [List.map_cons, List.mem_cons, not_or] at h
    rw [objGet_cons]
    simp [Ne.symm h.1, ih h.2]

theorem objGet_append (m₁ m₂ : List (String × JValue)) (n : String) :
    objGet (m₁ ++ m₂) n =
      (match objGet m₁ n with
        | some v => some v
        | none => objGet m₂ n) := by
  induction m₁ with
  | nil => simp [objGet_nil]
  | cons p rest ih =>
    rw [List.cons_append, objGet_cons, objGet_cons]
    by_cases h : p.1 = n <;> simp [h, ih]

end MapLemmas

/-- The request map a `BoundMaps` value holds for a given location. -/
def BoundMaps.loc (b : BoundMaps) : ParamType → List (String × JValue)
  | .path => b.pathParams
  | .query => b.query
  | .header => b.headers
  | .cookie => b.cookies

section BindLemmas

theorem loc_empty (t : ParamType) : (({} : BoundMaps)).loc t = [] := by
  cases t <;> rfl

theorem loc_setRequestParam_self (b : BoundMaps) (n : String) (v : JValue) (t : ParamType) :
    (setRequestParam b n v t).loc t = objSet (b.loc t) n v := by
  cases t <;> rfl

theorem loc_setRequestParam_ne (b : BoundMaps) (n : String) (v : JValue)
    (t t' : ParamType) (h : t' ≠ t) : (setRequestParam b n v t).loc t' = b.loc t' := by
  cases t <;> cases t' <;> first | rfl | exact absurd rfl h

theorem objGet_loc_setRequestParam_ne (b : BoundMaps) (n : String) (v : JValue)
    (t t' : ParamType) (n' : String) (h : n' ≠ n) :
    objGet ((setRequestParam b n v t).loc t') n' = objGet (b.loc t') n' := by
  by_cases ht : t' = t
  · subst ht
    rw [loc_setRequestParam_self, objGet_objSet_ne _ _ _ _ h]
  · rw [loc_setRequestParam_ne _ _ _ _ _ ht]

/-- What the `ParamsObject` loop contributes at one name for one location:
the value when it is truthy and classified there, nothing otherwise. -/
def mapBinding (op : Operation) (m : List (String × JValue)) (t : ParamType)
    (n : String) : Option JValue :=
  match objGet m n with
  | some v => if v.truthy && (getParamType op n == t) then some v else none
  | none => none

theorem bindParamsObject_objGet (op : Operation) (m : List (String × JValue))
    (hm : (m.map Prod.fst).Nodup) (b : BoundMaps) (t : ParamType) (n : String) :
    objGet ((bindParamsObject op m b).loc t) n =
      (match mapBinding op m t n with
        | some v => some v
        | none => objGet (b.loc t) n) := by
  induction m generalizing b with
  | nil => simp [bindParamsObject, mapBinding, objGet_nil]
  | cons p rest ih =>
    obtain ⟨n0, v0⟩ := p
    simp only [List.map_cons, List.nodup_cons] at hm
    obtain ⟨hn0, hrest⟩ := hm
    rw [show bindParamsObject op ((n0, v0) :: rest) b =
        bindParamsObject op rest
          (if v0.truthy then setRequestParam b n0 v0 (getParamType op n0) else b) from rfl]
    rw [ih hrest]
    by_cases hn : n = n0
    · subst hn
      have hrest0 : objGet rest n = none :=
        objGet_eq_none_of_not_mem _ _ (by simpa using hn0)
      have hmb : mapBinding op rest t n = none := by simp [mapBinding, hrest0]
      rw [hmb]
      have hmb2 : mapBinding op ((n, v0) :: rest) t n = 
          (if v0.truthy && (getParamType op n == t) then some v0 else none) := by
        simp [mapBinding, objGet_cons]
      rw [hmb2]
      by_cases htr : v0.truthy
      · by_cases hty : getParamType op n = t
        · subst hty
          simp [htr, loc_setRequestParam_self, objGet_objSet_self]
        · have : (getParamType op n == t) = false := by
            simp [hty]
          simp [htr, this, loc_setRequestParam_ne _ _ _ _ _ (Ne.symm hty)]
      · simp [htr]
    · have hcons : mapBinding op ((n0, v0) :: rest) t n = mapBinding op rest t n := by
        simp [mapBinding, objGet_cons, Ne.symm hn]
      rw [hcons]
      cases hmb : mapBinding op rest t n with
      | some v => rfl
      | none =>
        by_cases htr : v0.truthy
        · simp [htr, objGet_loc_setRequestParam_ne _ _ _ _ _ _ hn]
        · simp [htr]

theorem jsToString_str (s : String) : jsToString (.str s) = s := rfl

theorem objGet_coercePathParams (names : List String) (m : List (String × JValue))
    (n : String) :
    objGet (coercePathParams names m) n =
      (if n ∈ names then some (.str (jsToString ((objGet m n).getD .undef)))
       else objGet m n) := by
  induction names generalizing m with
  | nil => simp [coercePathParams]
  | cons n0 ns ih =>
    rw [show coercePathParams (n0 :: ns) m =
        coercePathParams ns
          (objSet m n0 (.str (jsToString ((objGet m n0).getD .undef)))) from rfl]
    rw [ih]
    by_cases hn : n = n0
    · subst hn
      have hset : objGet (objSet m n (.str (jsToString ((objGet m n).getD .undef)))) n =
          some (.str (jsToString ((objGet m n).getD .undef))) := objGet_objSet_self _ _ _
      by_cases hmem : n ∈ ns
      · simp [hmem, hset, jsToString_str]
      · simp [hmem, hset]
    · have hset : objGet (objSet m n0 (.str (jsToString ((objGet m n0).getD .undef)))) n =
          objGet m n := objGet_objSet_ne _ _ _ _ hn
      by_cases hmem : n ∈ ns
      · simp [hmem, hset, hn]
      · simp [hmem, hset, hn]

end BindLemmas

section RequestLemmas

theorem getRequestConfigForOperation_eq (st : ClientState) (op : Operation)
    (args : OperationMethodArgs) (b : BoundMaps)
    (hb : bindArgs op args.params = .ok b) :
    getRequestConfigForOperation st op args = .ok
      { method := op.method
        url := optStr (getBaseURL st (some op)) ++
          renderPattern op.path (coercePathParams (bathNames op.path) b.pathParams) ++
          (if qsStringify b.query = "" then "" else "?" ++ qsStringify b.query)
        path := renderPattern op.path (coercePathParams (bathNames op.path) b.pathParams)
        pathParams := coercePathParams (bathNames op.path) b.pathParams
        query := b.query
        queryString := qsStringify b.query
        headers := b.headers
        cookies := b.cookies
        payload := args.payload } := by
  simp [getRequestConfigForOperation, hb, Bind.bind, Except.bind]

theorem getRequestConfigForOperation_err (st : ClientState) (op : Operation)
    (args : OperationMethodArgs) (e : String)
    (hb : bindArgs op args.params = .error e) :
    getRequestConfigForOperation st op args = .error e := by
  simp [getRequestConfigForOperation, hb, Bind.bind, Except.bind]

theorem getRequestConfigForOperation_ok_inv (st : ClientState) (op : Operation)
    (args : OperationMethodArgs) (r : RequestConfig)
    (h : getRequestConfigForOperation st op args = .ok r) :
    ∃ b, bindArgs op args.params = .ok b := by
  cases hb : bindArgs op args.params with
  | ok b => exact ⟨b, rfl⟩
  | error e => rw [getRequestConfigForOperation_err st op args e hb] at h; cases h

end RequestLemmas

section MergeLemmas

theorem objGet_lodashMergeFields (s : List (String × JValue))
    (hs : (s.map Prod.fst).Nodup) (d : List (String × JValue)) (k : String) :
    objGet (lodashMergeFields d s) k =
      (match objGet s k, objGet d k with
        | none, dv? => dv?
        | some sv, none => some sv
        | some sv, some dv => some (if sv.isUndef then dv else lodashMerge dv sv)) := by
  induction s generalizing d with
  | nil => cases hd : objGet d k <;> simp [lodashMergeFields, objGet_nil, hd]
  | cons p rest ih =>
    obtain ⟨k0, sv0⟩ := p
    simp only [List.map_cons, List.nodup_cons] at hs
    obtain ⟨hk0, hrest⟩ := hs
    rw [show lodashMergeFields d ((k0, sv0) :: rest) =
        lodashMergeFields
          (match objGet d k0 with
            | some dv => if sv0.isUndef then d else objSet d k0 (lodashMerge dv sv0)
            | none => d ++ [(k0, sv0)]) rest from rfl]
    rw [ih hrest]
    by_cases hk : k = k0
    · subst hk
      have hrest0 : objGet rest k = none :=
        objGet_eq_none_of_not_mem _ _ (by simpa using hk0)
      rw [hrest0]
      have hck : objGet ((k, sv0) :: rest) k = some sv0 := by
        rw [objGet_cons]; simp
      rw [hck]
      cases hd : objGet d k with
      | some dv =>
        by_cases hu : sv0.isUndef
        · simp [hu, hd]
        · simp [hu, hd, objGet_objSet_self]
      | none =>
        rw [objGet_append]
        rw [hd]
        simp [objGet_cons, hd]
    · have hck : objGet ((k0, sv0) :: rest) k = objGet rest k := by
        rw [objGet_cons]; simp [Ne.symm hk]
      rw [hck]
      have hd' :
          objGet
            (match objGet d k0 with
              | some dv => if sv0.isUndef then d else objSet d k0 (lodashMerge dv sv0)
              | none => d ++ [(k0, sv0)]) k = objGet d k := by
        cases hd0 : objGet d k0 with
        | some dv =>
          by_cases hu : sv0.isUndef
          · simp [hu]
          · simp [hu, objGet_objSet_ne _ _ _ _ hk]
        | none =>
          rw [objGet_append]
          cases hdk : objGet d k with
          | some v => rfl
          | none => simp [objGet_cons, Ne.symm hk, objGet_nil]
      rw [hd']

theorem lodashMergeArrays_getElem? (s d : List JValue) (i : Nat) :
    (lodashMergeArrays d s)[i]? =
      (match s[i]?, d[i]? with
        | none, dv? => dv?
        | some sv, none => some sv
        | some sv, some dv => some (if sv.isUndef then dv else lodashMerge dv sv)) := by
  induction s generalizing d i with
  | nil => cases hd : d[i]? <;> simp [lodashMergeArrays, hd]
  | cons sv rest ih =>
    cases d with
    | nil =>
      cases i with
      | zero => simp [lodashMergeArrays]
      | succ j =>
        rw [show lodashMergeArrays [] (sv :: rest) = sv :: lodashMergeArrays [] rest from rfl]
        simp only [List.getElem?_cons_succ]
        rw [ih [] j]
        cases hs : rest[j]? <;> simp [hs]
    | cons dv drest =>
      cases i with
      | zero => simp [lodashMergeArrays]
      | succ j =>
        rw [show lodashMergeArrays (dv :: drest) (sv :: rest) =
            (if sv.isUndef then dv else lodashMerge dv sv) ::
              lodashMergeArrays drest rest from rfl]
        simp only [List.getElem?_cons_succ]
        exact ih drest j

theorem lodashMerge_obj_obj (d s : List (String × JValue)) :
    lodashMerge (.obj d) (.obj s) = .obj (lodashMergeFields d s) := rfl

theorem lodashMerge_arr_arr (d s : List JValue) :
    lodashMerge (.arr d) (.arr s) = .arr (lodashMergeArrays d s) := rfl

/-- Is this value one `_.merge` recurses into (a plain object or array)? -/
def JValue.mergeable : JValue → Bool
  | .obj _ => true
  | .arr _ => true
  | _ => false

theorem lodashMerge_assign (dv sv : JValue) (h : sv.mergeable = false) :
    lodashMerge dv sv = sv := by
  cases sv <;> cases dv <;> first | rfl | (exact absurd h (by simp [JValue.mergeable]))

end MergeLemmas

section CatalogLemmas

theorem find?_append_first {α : Type} (l₁ l₂ : List α) (p : α → Bool) :
    (l₁ ++ l₂).find? p =
      (match l₁.find? p with
        | some x => some x
        | none => l₂.find? p) := by
  induction l₁ with
  | nil => simp
  | cons a rest ih => by_cases h : p a <;> simp [List.find?, h, ih]

theorem mkOperation_mem_getOperations (doc : Document) (path : PathPattern)
    (item : PathItem) (m : HttpMethod) (o : OperationObject)
    (hmem : (path, item) ∈ doc.paths) (hop : item.methodGet m = some o) :
    mkOperation path m o item ∈ getOperations doc := by
  unfold getOperations
  rw [List.mem_flatten]
  refine ⟨item.methodEntries.map (fun mo => mkOperation path mo.1 mo.2 item), ?_, ?_⟩
  · exact List.mem_map.mpr ⟨(path, item), hmem, rfl⟩
  · refine List.mem_map.mpr ⟨(m, o), ?_, rfl⟩
    unfold PathItem.methodEntries
    exact List.mem_filterMap.mpr ⟨m, by cases m <;> simp, by rw [hop]; rfl⟩

end CatalogLemmas

section AxiosLemmas

theorem getAxiosConfigForOperation_eq (st : ClientState) (op : Operation)
    (args : OperationMethodArgs) (req : RequestConfig)
    (hreq : getRequestConfigForOperation st op args = .ok req) :
    getAxiosConfigForOperation st op args = .ok
      (match args.config with
        | some c => lodashMerge (.obj (buildAxiosConfig op req)) c
        | none => .obj (buildAxiosConfig op req)) := by
  simp [getAxiosConfigForOperation, hreq, Bind.bind, Except.bind]

theorem getRequestConfig_config_irrel (st : ClientState) (op : Operation)
    (pa : ParamsArg) (payload : JValue) (cfg cfg' : Option JValue) :
    getRequestConfigForOperation st op { params := pa, payload := payload, config := cfg } =
      getRequestConfigForOperation st op
        { params := pa, payload := payload, config := cfg' } := by
  cases hb : bindArgs op pa with
  | ok b =>
    rw [getRequestConfigForOperation_eq st op _ b hb,
      getRequestConfigForOperation_eq st op _ b hb]
  | error e =>
    rw [getRequestConfigForOperation_err st op _ e hb,
      getRequestConfigForOperation_err st op _ e hb]

end AxiosLemmas

/-! Concrete fixtures used by the claim theorems below. -/

/-- The pattern `/pets/{id}`. -/
def petsPattern : PathPattern := [.lit "/pets/", .prm "id"]

/-- An operation with a single required path parameter `id`. -/
def getPetOp : Operation :=
  { operationId := some "getPet"
    parameters := [{ name := "id", «in» := .path, required := true }]
    path := petsPattern
    method := .get }

/-- An operation that declares no parameters at all. -/
def noParamsOp : Operation :=
  { operationId := some "listPets", path := [.lit "/pets"], method := .get }

/-- An operation whose required parameter is declared after an optional one. -/
def mixedParamsOp : Operation :=
  { operationId := some "findPet"
    parameters := [{ name := "tag", «in» := .query, required := false },
                   { name := "id", «in» := .path, required := true }]
    path := petsPattern
    method := .get }

/-- An operation with a single declared header parameter `Y`. -/
def headerParamOp : Operation :=
  { operationId := some "withHeader"
    parameters := [{ name := "Y", «in» := .header }]
    path := [.lit "/h"]
    method := .get }

/-- Client state before any definition is loaded. -/
def noDefState : ClientState := { definition := none }

/-- Client state with one top-level server and the default selector. -/
def exampleState : ClientState :=
  { definition := some { servers := [{ url := "https://api.example.com" }] } }

/-- A document with two described servers. -/
def twoServersDoc : Document :=
  { servers := [{ url := "A", description := some "prod" },
                { url := "B", description := some "staging" }] }

/-- Client state selecting the default server by description string. -/
def stagingState : ClientState :=
  { definition := some twoServersDoc, defaultServer := .desc "staging" }

/-- An operation carrying its own server list. -/
def overrideServerOp : Operation :=
  { servers := [{ url := "https://op-override" }], path := [.lit "/x"], method := .get }

/-- C1: binding a bare scalar locates the operation's first parameter
declared `required: true` (regardless of declaration order) and binds the
scalar under that parameter's declared location; with no required parameter
it binds to the first declared parameter; with no declared parameters at
all, request construction fails with a descriptive error naming the
operation. -/
theorem scalar_arg_binding (op : Operation) (v : JValue) :
    (∀ p, op.parameters.find? (fun q => q.required) = some p →
      ∃ b, bindArgs op (.scalar v) = .ok b ∧
        objGet (b.loc p.«in») p.name = some v ∧
        ∀ t, t ≠ p.«in» → b.loc t = []) ∧
    (op.parameters.find? (fun q => q.required) = none →
      ∀ p, op.parameters.head? = some p →
        ∃ b, bindArgs op (.scalar v) = .ok b ∧
          objGet (b.loc p.«in») p.name = some v ∧
          ∀ t, t ≠ p.«in» → b.loc t = []) ∧
    (op.parameters = [] →
      ∀ st payload cfg,
        getRequestConfigForOperation st op
            { params := .scalar v, payload := payload, config := cfg } =
          .error ("No parameters found for operation " ++ optStr op.operationId)) := by
  have bindFact : ∀ p, getFirstOperationParam op = some p →
      ∃ b, bindArgs op (.scalar v) = .ok b ∧
        objGet (b.loc p.«in») p.name = some v ∧
        ∀ t, t ≠ p.«in» → b.loc t = [] := by
    intro p hp
    refine ⟨setRequestParam {} p.name v p.«in», by simp [bindArgs, hp], ?_, ?_⟩
    · rw [loc_setRequestParam_self, objGet_objSet_self]
    · intro t ht
      rw [loc_setRequestParam_ne _ _ _ _ _ ht, loc_empty]
  refine ⟨?_, ?_, ?_⟩
  · intro p hp
    exact bindFact p (by unfold getFirstOperationParam; rw [hp])
  · intro hnone p hp
    exact bindFact p (by unfold getFirstOperationParam; rw [hnone, hp])
  · intro hemp st payload cfg
    have hfirst : getFirstOperationParam op = none := by
      simp [getFirstOperationParam, hemp]
    exact getRequestConfigForOperation_err st op _ _ (by simp [bindArgs, hfirst])

/-- Witness for C1: the required parameter is declared second yet receives
the scalar under its declared (path) location; an operation declaring no
parameters yields the operation-naming error. -/
theorem scalar_arg_binding_witness :
    (∃ b, bindArgs mixedParamsOp (.scalar (.num 7)) = .ok b ∧
      objGet (b.loc .path) "id" = some (.num 7) ∧
      ∀ t, t ≠ ParamType.path → b.loc t = []) ∧
    getRequestConfigForOperation exampleState noParamsOp
        { params := .scalar (.num 1), payload := .undef, config := none } =
      .error "No parameters found for operation listPets" := by
  constructor
  · exact (scalar_arg_binding mixedParamsOp (.num 7)).1
      { name := "id", «in» := .path, required := true } rfl
  · exact (scalar_arg_binding noParamsOp (.num 1)).2.2 rfl exampleState .undef none

/-- C6 counterexample: an operation with a non-empty server list of its own
does not resolve to that list's first URL in every state — with no
definition loaded, resolution returns nothing. -/
theorem op_server_not_unconditional_cex :
    overrideServerOp.servers = [{ url := "https://op-override" }] ∧
    getBaseURL noDefState (some overrideServerOp) = none ∧
    (none : Option String) ≠ some "https://op-override" :=
  ⟨rfl, rfl, by simp⟩

/-- C6 (amended): provided a definition is loaded, an operation that
declares a non-empty server list of its own resolves to that list's first
entry's URL, whatever the default-server selector is. -/
theorem op_server_wins (defn : Document) (sel : ServerSelector)
    (vars : List (String × String)) (op : Operation) (s : Server)
    (rest : List Server) (hs : op.servers = s :: rest) :
    getBaseURL
      { definition := some defn, defaultServer := sel,
        baseURLVariables := vars } (some op) = some s.url := by
  simp [getBaseURL, hs]

/-- Witness for C6: the operation-level server beats a description-string
default selector. -/
theorem op_server_wins_witness :
    getBaseURL stagingState (some overrideServerOp) = some "https://op-override" :=
  op_server_wins twoServersDoc (.desc "staging") [] overrideServerOp
    { url := "https://op-override" } [] rfl

/-- C7 counterexample: an explicit origin object whose URL is the empty
string is not used verbatim — resolution returns nothing instead of the
empty URL. -/
theorem explicit_server_empty_url_cex :
    getBaseURL
      { definition := some twoServersDoc,
        defaultServer := .srv { url := "" }, baseURLVariables := [] } none = none ∧
    (none : Option String) ≠ some "" :=
  ⟨rfl, by simp⟩

/-- C7 (amended): a string selector picks the first top-level server whose
description equals it (matching description, never URL; no match resolves to
nothing); a numeric selector picks the server at that index; an explicit
origin object is used verbatim when its URL is non-empty, while an empty URL
resolves to nothing. -/
theorem default_server_selection (defn : Document) (vars : List (String × String)) :
    (∀ sel : String,
      getBaseURL
        { definition := some defn, defaultServer := .desc sel,
          baseURLVariables := vars } none =
        (defn.servers.find? (fun s => s.description == some sel)).map (fun s => s.url)) ∧
    (∀ n : Nat,
      getBaseURL
        { definition := some defn, defaultServer := .idx n,
          baseURLVariables := vars } none = defn.servers[n]?.map (fun s => s.url)) ∧
    (∀ sv : Server, sv.url ≠ "" →
      getBaseURL
        { definition := some defn, defaultServer := .srv sv,
          baseURLVariables := vars } none = some sv.url) ∧
    (∀ sv : Server, sv.url = "" →
      getBaseURL
        { definition := some defn, defaultServer := .srv sv,
          baseURLVariables := vars } none = none) := by
  refine ⟨fun sel => by simp [getBaseURL], fun n => by simp [getBaseURL], ?_, ?_⟩
  · intro sv h
    simp [getBaseURL, h]
  · intro sv h
    simp [getBaseURL, h]

/-- Witness for C7: `"staging"` selects by description (url `B`), index `0`
selects the first server (url `A`), and a non-empty explicit origin is used
verbatim. -/
theorem default_server_selection_witness :
    getBaseURL stagingState none = some "B" ∧
    getBaseURL
      { definition := some twoServersDoc, defaultServer := .idx 0,
        baseURLVariables := [] } none = some "A" ∧
    getBaseURL
      { definition := some twoServersDoc,
        defaultServer := .srv { url := "https://x" }, baseURLVariables := [] } none =
      some "https://x" := by
  refine ⟨?_, ?_, ?_⟩
  · exact ((default_server_selection twoServersDoc []).1 "staging").trans (by rfl)
  · exact ((default_server_selection twoServersDoc []).2.1 0).trans (by rfl)
  · exact (default_server_selection twoServersDoc []).2.2.1 { url := "https://x" }
      (by decide)

/-- C3: for every successful request construction, whatever the argument
shape, the value of each placeholder named in the path pattern is coerced to
exactly the string form of the value the binder bound there — and to the
literal string "undefined" when the binder left the placeholder unbound —
and the rendered path substitutes those values in place. -/
theorem path_rendering_total (st : ClientState) (op : Operation)
    (args : OperationMethodArgs) (r : RequestConfig) (b : BoundMaps)
    (hb : bindArgs op args.params = .ok b)
    (h : getRequestConfigForOperation st op args = .ok r) :
    r.path = renderPattern op.path r.pathParams ∧
    (∀ n, n ∈ bathNames op.path →
      objGet r.pathParams n =
        some (.str (jsToString ((objGet b.pathParams n).getD .undef)))) ∧
    (∀ n, n ∈ bathNames op.path → objGet b.pathParams n = none →
      objGet r.pathParams n = some (.str "undefined")) := by
  rw [getRequestConfigForOperation_eq st op args b hb] at h
  injection h with hr
  subst hr
  have hcoerce : ∀ n, n ∈ bathNames op.path →
      objGet (coercePathParams (bathNames op.path) b.pathParams) n =
        some (.str (jsToString ((objGet b.pathParams n).getD .undef))) := by
    intro n hn
    rw [objGet_coercePathParams, if_pos hn]
  refine ⟨rfl, hcoerce, ?_⟩
  intro n hn hnone
  show objGet (coercePathParams (bathNames op.path) b.pathParams) n =
    some (.str "undefined")
  rw [hcoerce n hn, hnone]
  rfl

/-- Witness for C3: a bound placeholder value (`id = 42`) is coerced to its
own string form "42", and a placeholder left unbound by a non-empty mapping
argument (`{tag: "x"}` on `/pets/{id}`) is coerced to the literal string
"undefined". -/
theorem path_rendering_total_witness :
    (∃ r, getRequestConfigForOperation exampleState getPetOp
        { params := .obj [("id", .num 42)], payload := .undef, config := none } =
          .ok r ∧
      r.path = renderPattern getPetOp.path r.pathParams ∧
      objGet r.pathParams "id" = some (.str "42")) ∧
    (∃ r, getRequestConfigForOperation exampleState getPetOp
        { params := .obj [("tag", .str "x")], payload := .undef, config := none } =
          .ok r ∧
      objGet r.pathParams "id" = some (.str "undefined")) := by
  constructor
  · obtain ⟨h1, h2, -⟩ := path_rendering_total exampleState getPetOp
      { params := .obj [("id", .num 42)], payload := .undef, config := none }
      _ _ rfl rfl
    exact ⟨_, rfl, h1, (h2 "id" (by decide)).trans (by rfl)⟩
  · obtain ⟨-, -, h3⟩ := path_rendering_total exampleState getPetOp
      { params := .obj [("tag", .str "x")], payload := .undef, config := none }
      _ _ rfl rfl
    exact ⟨_, rfl, h3 "id" (by decide) rfl⟩

/-- C4 counterexample: with an unresolved base URL the computed full URL is
not the bare path — the absent origin is interpolated as the literal text
"undefined" in front of the path. -/
theorem unresolved_baseurl_cex :
    getBaseURL noDefState (some getPetOp) = none ∧
    (getRequestConfigForOperation noDefState getPetOp
        { params := .obj [("id", .num 42)], payload := .undef, config := none }).map
      (fun r => (r.url, r.path)) = .ok ("undefined/pets/42", "/pets/42") ∧
    ("undefined/pets/42" : String) ≠ "/pets/42" :=
  ⟨rfl, rfl, by decide⟩

/-- C4 (amended): when base-URL resolution yields no origin, request
construction still succeeds, and the resulting URL is the literal prefix
"undefined" (the template-literal coercion of the absent origin) followed by
the path and the optional query string — not an empty prefix. -/
theorem unresolved_baseurl_literal (st : ClientState) (op : Operation)
    (hbase : getBaseURL st (some op) = none) :
    (∀ payload cfg, ∃ r,
      getRequestConfigForOperation st op
          { params := .absent, payload := payload, config := cfg } = .ok r) ∧
    (∀ args r, getRequestConfigForOperation st op args = .ok r →
      r.url = "undefined" ++ r.path ++
        (if r.queryString = "" then "" else "?" ++ r.queryString)) := by
  constructor
  · intro payload cfg
    exact ⟨_, getRequestConfigForOperation_eq st op _ {} rfl⟩
  · intro args r h
    obtain ⟨b, hb⟩ := getRequestConfigForOperation_ok_inv st op args r h
    rw [getRequestConfigForOperation_eq st op args b hb] at h
    injection h with hr
    subst hr
    simp [hbase, optStr]

/-- Witness for C4: no definition is loaded, yet construction succeeds and
the URL carries the "undefined" prefix. -/
theorem unresolved_baseurl_literal_witness :
    ∃ r, getRequestConfigForOperation noDefState getPetOp
        { params := .absent, payload := .undef, config := none } = .ok r ∧
      r.url = "undefined" ++ r.path ++
        (if r.queryString = "" then "" else "?" ++ r.queryString) := by
  obtain ⟨-, h2⟩ := unresolved_baseurl_literal noDefState getPetOp rfl
  exact ⟨_, rfl, h2 { params := .absent, payload := .undef, config := none } _ rfl⟩

/-- C2 counterexample: a key with a falsy value (`0`) that names a path
placeholder is not absent from the final descriptor's `pathParams` — the
path-coercion loop re-adds it as the literal string "undefined". -/
theorem mapping_falsy_pathparam_cex :
    (JValue.num 0).truthy = false ∧
    (getRequestConfigForOperation noDefState getPetOp
        { params := .obj [("id", .num 0)], payload := .undef, config := none }).map
      (fun r => objGet r.pathParams "id") = .ok (some (.str "undefined")) ∧
    some (JValue.str "undefined") ≠ none :=
  ⟨rfl, rfl, by simp⟩

/-- C2 (amended): binding a mapping places each truthy-valued key at its
declared location (default query) with its value unchanged, and keys with
falsy values are absent from query, headers and cookies; however the final
descriptor's `pathParams` additionally holds every placeholder name of the
path pattern, string-coerced — a falsy or unsupplied key naming a
placeholder therefore appears there as the string "undefined". -/
theorem mapping_arg_binding (st : ClientState) (op : Operation)
    (m : List (String × JValue)) (payload : JValue) (cfg : Option JValue)
    (hm : (m.map Prod.fst).Nodup) :
    ∃ r, getRequestConfigForOperation st op
        { params := .obj m, payload := payload, config := cfg } = .ok r ∧
      ∀ n,
        objGet r.query n = mapBinding op m .query n ∧
        objGet r.headers n = mapBinding op m .header n ∧
        objGet r.cookies n = mapBinding op m .cookie n ∧
        (n ∈ bathNames op.path →
          objGet r.pathParams n =
            some (.str (jsToString ((mapBinding op m .path n).getD .undef)))) ∧
        (n ∉ bathNames op.path →
          objGet r.pathParams n = mapBinding op m .path n) := by
  have hb : bindArgs op (.obj m) = .ok (bindParamsObject op m {}) := rfl
  refine ⟨_, getRequestConfigForOperation_eq st op _ _ hb, ?_⟩
  intro n
  have hloc : ∀ t, objGet ((bindParamsObject op m ({} : BoundMaps)).loc t) n =
      mapBinding op m t n := by
    intro t
    have h := bindParamsObject_objGet op m hm {} t n
    rw [loc_empty, objGet_nil] at h
    rw [h]
    cases mapBinding op m t n <;> rfl
  have hq : objGet (bindParamsObject op m ({} : BoundMaps)).query n =
      mapBinding op m .query n := hloc .query
  have hh : objGet (bindParamsObject op m ({} : BoundMaps)).headers n =
      mapBinding op m .header n := hloc .header
  have hc : objGet (bindParamsObject op m ({} : BoundMaps)).cookies n =
      mapBinding op m .cookie n := hloc .cookie
  have hp : objGet (bindParamsObject op m ({} : BoundMaps)).pathParams n =
      mapBinding op m .path n := hloc .path
  refine ⟨hq, hh, hc, ?_, ?_⟩
  · intro hn
    show objGet (coercePathParams (bathNames op.path)
      (bindParamsObject op m ({} : BoundMaps)).pathParams) n = _
    rw [objGet_coercePathParams, if_pos hn, hp]
  · intro hn
    show objGet (coercePathParams (bathNames op.path)
      (bindParamsObject op m ({} : BoundMaps)).pathParams) n = _
    rw [objGet_coercePathParams, if_neg hn, hp]

/-- Witness for C2: `{a: 0, b: "x"}` forwards only `b` (to query) while `a`
is absent from every map of a pattern-free operation. -/
theorem mapping_arg_binding_witness :
    ∃ r, getRequestConfigForOperation exampleState noParamsOp
        { params := .obj [("a", .num 0), ("b", .str "x")], payload := .undef,
          config := none } = .ok r ∧
      objGet r.query "b" = some (.str "x") ∧
      objGet r.query "a" = none ∧ objGet r.headers "a" = none ∧
      objGet r.cookies "a" = none ∧ objGet r.pathParams "a" = none := by
  obtain ⟨r, hr, hall⟩ := mapping_arg_binding exampleState noParamsOp
    [("a", .num 0), ("b", .str "x")] .undef none (by decide)
  refine ⟨r, hr, ?_, ?_, ?_, ?_, ?_⟩
  · exact (hall "b").1.trans rfl
  · exact (hall "a").1.trans rfl
  · exact (hall "a").2.1.trans rfl
  · exact (hall "a").2.2.1.trans rfl
  · exact ((hall "a").2.2.2.2 (by decide)).trans rfl

/-- C9 counterexample: an array-shaped argument with two entries for the
same name and conflicting explicit locations places that name in two maps of
one request at once. -/
theorem same_name_two_locations_cex :
    ∃ r, getRequestConfigForOperation exampleState noParamsOp
        { params := .arr [{ name := "a", value := .num 1, «in» := some .query },
                          { name := "a", value := .num 2, «in» := some .header }],
          payload := .undef, config := none } = .ok r ∧
      objGet r.query "a" = some (.num 1) ∧
      objGet r.headers "a" = some (.num 2) :=
  ⟨_, rfl, rfl, rfl⟩

/-- C9 (amended): for a mapping-shaped argument, any name that is not a
placeholder of the path pattern appears in at most one of the four location
maps; the invariant can fail for array-shaped arguments carrying conflicting
explicit locations, and for placeholder names classified to a non-path
location (path rendering also fills them into `pathParams`). -/
theorem single_location_per_name (st : ClientState) (op : Operation)
    (m : List (String × JValue)) (payload : JValue) (cfg : Option JValue)
    (r : RequestConfig) (n : String)
    (hm : (m.map Prod.fst).Nodup)
    (h : getRequestConfigForOperation st op
        { params := .obj m, payload := payload, config := cfg } = .ok r)
    (hn : n ∉ bathNames op.path) :
    (objGet r.pathParams n).isSome.toNat + (objGet r.query n).isSome.toNat +
      (objGet r.headers n).isSome.toNat + (objGet r.cookies n).isSome.toNat ≤ 1 := by
  have hb : bindArgs op (.obj m) = .ok (bindParamsObject op m {}) := rfl
  rw [getRequestConfigForOperation_eq st op _ _ hb] at h
  injection h with hr
  subst hr
  have hloc : ∀ t, objGet ((bindParamsObject op m ({} : BoundMaps)).loc t) n =
      mapBinding op m t n := by
    intro t
    have h := bindParamsObject_objGet op m hm {} t n
    rw [loc_empty, objGet_nil] at h
    rw [h]
    cases mapBinding op m t n <;> rfl
  have hpp : objGet (coercePathParams (bathNames op.path)
      (bindParamsObject op m ({} : BoundMaps)).pathParams) n =
      mapBinding op m .path n := by
    rw [objGet_coercePathParams, if_neg hn]
    exact hloc .path
  show (objGet (coercePathParams (bathNames op.path)
      (bindParamsObject op m ({} : BoundMaps)).pathParams) n).isSome.toNat +
      (objGet (bindParamsObject op m ({} : BoundMaps)).query n).isSome.toNat +
      (objGet (bindParamsObject op m ({} : BoundMaps)).headers n).isSome.toNat +
      (objGet (bindParamsObject op m ({} : BoundMaps)).cookies n).isSome.toNat ≤ 1
  rw [hpp, show objGet (bindParamsObject op m ({} : BoundMaps)).query n =
      mapBinding op m .query n from hloc .query,
    show objGet (bindParamsObject op m ({} : BoundMaps)).headers n =
      mapBinding op m .header n from hloc .header,
    show objGet (bindParamsObject op m ({} : BoundMaps)).cookies n =
      mapBinding op m .cookie n from hloc .cookie]
  cases hv : objGet m n with
  | none => simp [mapBinding, hv]
  | some v =>
    by_cases htr : v.truthy
    · cases ht : getParamType op n <;> simp [mapBinding, hv, htr, ht]
    · simp [mapBinding, hv, htr]

/-- Witness for C9: one truthy mapping key on a pattern-free operation lands
in exactly one map. -/
theorem single_location_per_name_witness :
    ∃ r, getRequestConfigForOperation exampleState noParamsOp
        { params := .obj [("a", .num 1)], payload := .undef, config := none } = .ok r ∧
      (objGet r.pathParams "a").isSome.toNat + (objGet r.query "a").isSome.toNat +
        (objGet r.headers "a").isSome.toNat + (objGet r.cookies "a").isSome.toNat ≤ 1 :=
  ⟨_, rfl, single_location_per_name exampleState noParamsOp [("a", .num 1)]
    .undef none _ "a" (by decide) rfl (by decide)⟩

/-- C10: after argument binding, only values bound under path-placeholder
names are string-coerced; the query, header and cookie maps and the body
payload pass into the final descriptor exactly as bound, and a mapping
argument's truthy values are bound exactly as supplied. -/
theorem binding_frame_exactness (st : ClientState) (op : Operation)
    (args : OperationMethodArgs) (r : RequestConfig) (b : BoundMaps)
    (hb : bindArgs op args.params = .ok b)
    (h : getRequestConfigForOperation st op args = .ok r) :
    r.query = b.query ∧ r.headers = b.headers ∧ r.cookies = b.cookies ∧
    r.payload = args.payload ∧
    (∀ n, n ∉ bathNames op.path → objGet r.pathParams n = objGet b.pathParams n) ∧
    (∀ n, n ∈ bathNames op.path →
      objGet r.pathParams n =
        some (.str (jsToString ((objGet b.pathParams n).getD .undef)))) ∧
    (∀ m, args.params = .obj m → (m.map Prod.fst).Nodup →
      ∀ n v, objGet m n = some v → v.truthy →
        objGet (b.loc (getParamType op n)) n = some v) := by
  rw [getRequestConfigForOperation_eq st op args b hb] at h
  injection h with hr
  subst hr
  refine ⟨rfl, rfl, rfl, rfl, ?_, ?_, ?_⟩
  · intro n hn
    show objGet (coercePathParams (bathNames op.path) b.pathParams) n =
      objGet b.pathParams n
    rw [objGet_coercePathParams, if_neg hn]
  · intro n hn
    show objGet (coercePathParams (bathNames op.path) b.pathParams) n = _
    rw [objGet_coercePathParams, if_pos hn]
  · intro m hobj hm n v hv htr
    rw [hobj] at hb
    have hbval : b = bindParamsObject op m ({} : BoundMaps) := by
      have h2 : (Except.ok (bindParamsObject op m ({} : BoundMaps)) :
          Except String BoundMaps) = .ok b := hb
      injection h2 with h3
      exact h3.symm
    subst hbval
    have h := bindParamsObject_objGet op m hm {} (getParamType op n) n
    rw [loc_empty, objGet_nil] at h
    rw [h]
    simp [mapBinding, hv, htr]

/-- Witness for C10: the body and the query value arrive exactly as
supplied, and the placeholder value is the string coercion of what was
bound. -/
theorem binding_frame_exactness_witness :
    ∃ r b, bindArgs getPetOp (.obj [("id", .num 42)]) = .ok b ∧
      getRequestConfigForOperation exampleState getPetOp
        { params := .obj [("id", .num 42)], payload := .str "BODY",
          config := none } = .ok r ∧
      r.payload = .str "BODY" ∧ r.query = b.query ∧
      objGet r.pathParams "id" =
        some (.str (jsToString ((objGet b.pathParams "id").getD .undef))) := by
  obtain ⟨-, -, -, h4, -, h6, -⟩ := binding_frame_exactness exampleState getPetOp
    { params := .obj [("id", .num 42)], payload := .str "BODY", config := none }
    _ _ rfl rfl
  exact ⟨_, _, rfl, rfl, h4, rfl, h6 "id" (by decide)⟩

/-- Arguments whose override replaces an array element: computed query
`a = [1, 2]`, override `params.a = [9]`. -/
def arrayOverrideArgs : OperationMethodArgs :=
  { params := .obj [("a", .arr [.num 1, .num 2])]
    payload := .undef
    config := some (.obj [("params", .obj [("a", .arr [.num 9])])]) }

/-- C5 counterexample: an array-valued override field does not replace the
computed array wholesale — `_.merge` combines arrays index-by-index, so the
override `[9]` against the computed `[1, 2]` yields `[9, 2]`, not `[9]`. -/
theorem override_array_merge_cex :
    (getAxiosConfigForOperation exampleState noParamsOp arrayOverrideArgs).map
      (fun c => match c with
        | .obj f => objGet f "params"
        | _ => none) = .ok (some (.obj [("a", .arr [.num 9, .num 2])])) ∧
    JValue.arr [.num 9, .num 2] ≠ JValue.arr [.num 9] := by
  refine ⟨rfl, ?_⟩
  intro h
  injection h with h1
  simp at h1

/-- C5 (amended): a supplied raw override is deep-merged on top of the
computed config, applied last: on key conflicts the override value wins
key-by-key (non-`undefined`, non-container values override by assignment),
nested objects merge recursively, arrays merge index-by-index (override
elements win per index and computed elements beyond the override's length
are preserved), and keys present only in the computed config are kept. -/
theorem override_merge_spec (st : ClientState) (op : Operation)
    (args : OperationMethodArgs) (s : List (String × JValue)) (r : JValue)
    (hcfg : args.config = some (.obj s))
    (hs : (s.map Prod.fst).Nodup)
    (h : getAxiosConfigForOperation st op args = .ok r) :
    (∃ d, getAxiosConfigForOperation st op
        { params := args.params, payload := args.payload, config := none } =
          .ok (.obj d) ∧
      r = lodashMerge (.obj d) (.obj s) ∧
      ∀ k, objGet (lodashMergeFields d s) k =
        (match objGet s k, objGet d k with
          | none, dv? => dv?
          | some sv, none => some sv
          | some sv, some dv => some (if sv.isUndef then dv else lodashMerge dv sv))) ∧
    (∀ dv sv, sv.mergeable = false → lodashMerge dv sv = sv) ∧
    (∀ d2 s2, lodashMerge (.obj d2) (.obj s2) = .obj (lodashMergeFields d2 s2)) ∧
    (∀ (d2 s2 : List JValue) (i : Nat), (lodashMergeArrays d2 s2)[i]? =
      (match s2[i]?, d2[i]? with
        | none, dv? => dv?
        | some sv, none => some sv
        | some sv, some dv => some (if sv.isUndef then dv else lodashMerge dv sv))) := by
  have hreq : ∃ req, getRequestConfigForOperation st op args = .ok req := by
    cases hq : getRequestConfigForOperation st op args with
    | ok req => exact ⟨req, rfl⟩
    | error e => simp [getAxiosConfigForOperation, hq, Bind.bind, Except.bind] at h
  obtain ⟨req, hreq⟩ := hreq
  refine ⟨⟨buildAxiosConfig op req, ?_, ?_,
      fun k => objGet_lodashMergeFields s hs _ k⟩,
    fun dv sv hmg => lodashMerge_assign dv sv hmg,
    lodashMerge_obj_obj,
    fun d2 s2 i => lodashMergeArrays_getElem? s2 d2 i⟩
  · have hreq2 : getRequestConfigForOperation st op
        { params := args.params, payload := args.payload, config := none } = .ok req := by
      exact (getRequestConfig_config_irrel st op args.params args.payload
        none args.config).trans hreq
    exact getAxiosConfigForOperation_eq st op _ req hreq2
  · rw [getAxiosConfigForOperation_eq st op args req hreq, hcfg] at h
    injection h with hr
    exact hr.symm

/-- Arguments carrying a header override on top of a computed header map. -/
def headerOverrideArgs : OperationMethodArgs :=
  { params := .obj [("Y", .str "2")]
    payload := .undef
    config := some (.obj [("headers", .obj [("X", .str "1")])]) }

/-- Witness for C5: the override is merged last over the computed config,
and a key absent from the override (`method`) keeps its computed value. -/
theorem override_merge_spec_witness :
    ∃ d, getAxiosConfigForOperation exampleState headerParamOp
        { params := .obj [("Y", .str "2")], payload := .undef, config := none } =
          .ok (.obj d) ∧
      objGet (lodashMergeFields d [("headers", .obj [("X", .str "1")])]) "method" =
        objGet d "method" := by
  obtain ⟨⟨d, hd1, -, hchar⟩, -, -, -⟩ :=
    override_merge_spec exampleState headerParamOp headerOverrideArgs
      [("headers", .obj [("X", .str "1")])] _ rfl (by decide) rfl
  refine ⟨d, hd1, ?_⟩
  rw [hchar "method"]
  rfl

/-- A path item declaring `id` at the path level (as query) with an
operation-level declaration of the same name (as required path parameter). -/
def petOpObj : OperationObject :=
  { operationId := some "getPetById"
    parameters := [{ name := "id", «in» := .path, required := true }] }

def petItem : PathItem :=
  { get := some petOpObj
    parameters := [{ name := "id", «in» := .query },
                   { name := "limit", «in» := .query }] }

def petsDoc : Document := { paths := [(petsPattern, petItem)] }

/-- C8: path-level parameter declarations are appended after the
operation-level ones of every operation under that path, so every path-level
declaration is in the operation's parameter list and a name declared at both
levels classifies by its operation-level declaration (first match wins). -/
theorem path_level_params_merged (doc : Document) (path : PathPattern)
    (item : PathItem) (m : HttpMethod) (o : OperationObject)
    (hmem : (path, item) ∈ doc.paths) (hop : item.methodGet m = some o) :
    mkOperation path m o item ∈ getOperations doc ∧
    (mkOperation path m o item).parameters = o.parameters ++ item.parameters ∧
    (∀ p, p ∈ item.parameters → p ∈ (mkOperation path m o item).parameters) ∧
    (∀ n p, o.parameters.find? (fun q => q.name == n) = some p →
      getParamType (mkOperation path m o item) n = p.«in») := by
  refine ⟨mkOperation_mem_getOperations doc path item m o hmem hop, rfl, ?_, ?_⟩
  · intro p hp
    exact List.mem_append.mpr (Or.inr hp)
  · intro n p hfind
    unfold getParamType
    rw [show (mkOperation path m o item).parameters =
      o.parameters ++ item.parameters from rfl]
    rw [find?_append_first, hfind]

/-- Witness for C8: `id` declared at both levels classifies as the
operation-level path parameter, and the path-level `limit` declaration is in
the merged list. -/
theorem path_level_params_merged_witness :
    mkOperation petsPattern .get petOpObj petItem ∈ getOperations petsDoc ∧
    getParamType (mkOperation petsPattern .get petOpObj petItem) "id" = .path ∧
    ({ name := "limit", «in» := .query } : Parameter) ∈
      (mkOperation petsPattern .get petOpObj petItem).parameters := by
  obtain ⟨h1, -, h3, h4⟩ := path_level_params_merged petsDoc petsPattern petItem
    .get petOpObj (by simp [petsDoc]) rfl
  exact ⟨h1, h4 "id" { name := "id", «in» := .path, required := true } rfl,
    h3 { name := "limit", «in» := .query } (by simp [petItem])⟩
